import Mathlib

/-!
Verification development for the express-aggressive-cache middleware.

The TypeScript sources `src/middleware.ts` and `src/should-cache.ts` are
shallowly embedded below.  Parts of the repository referenced but not
present (the store backends' `has` over a list of keys, the `Queue` drain
loop of `utils.ts`, and the `cacheChunk`/`sealChunks` tasks of `chunk.ts`)
are modelled from the specification and marked as such in their doc
comments.
-/

/-- JavaScript runtime values as far as the cache-control logic observes
them: `undefined`, `null`, booleans, (integer) numbers and strings. -/
inductive JSValue where
  | undefined
  | null
  | bool (b : Bool)
  | num (n : Int)
  | str (s : String)
deriving DecidableEq, Repr

/-- JavaScript truthiness for the values of `JSValue`: `undefined`, `null`,
`false`, `0` and `""` are falsy, everything else is truthy. -/
def truthy : JSValue → Bool
  | .undefined => false
  | .null => false
  | .bool b => b
  | .num n => n != 0
  | .str s => s != ""

/-- JavaScript strict equality `v === 0`: true exactly when `v` is the
number `0`; a string `"0"` is not strictly equal to the number `0`. -/
def strictEqZero : JSValue → Bool
  | .num n => n == 0
  | _ => false

/-- The cache-control directive map read by `shouldCache`
(`src/should-cache.ts`): the four directives it looks up, each holding the
JavaScript value found under that key (`JSValue.undefined` when the key is
absent from the record). -/
structure CacheControlMap where
  noCache : JSValue
  noStore : JSValue
  isPrivate : JSValue
  maxAge : JSValue
deriving DecidableEq, Repr

/-- Embedding of `shouldCache` from `src/should-cache.ts`: a `null`
directive map yields `true`; otherwise the response is non-cacheable iff
`no-cache`, `no-store` or `private` is truthy or `max-age === 0`. -/
def shouldCache (cacheControl : Option CacheControlMap) : Bool :=
  match cacheControl with
  | none => true
  | some cc =>
    let noCache := cc.noCache
    let noStore := cc.noStore
    let isPrivate := cc.isPrivate
    let maxAge := cc.maxAge
    if truthy noCache || truthy noStore || truthy isPrivate || strictEqZero maxAge then
      false
    else
      true

example : shouldCache none = true := by decide
example : shouldCache (some ⟨.undefined, .undefined, .undefined, .num 0⟩) = false := by decide
example : shouldCache (some ⟨.undefined, .undefined, .undefined, .str "0"⟩) = true := by decide
example : shouldCache (some ⟨.bool true, .undefined, .undefined, .undefined⟩) = false := by decide

/-- C5: `shouldCache` returns `false` iff a directive map is present and
one of `no-cache`, `no-store`, `private` is truthy or `max-age` is
(strictly) the number `0`; an absent (`null`) map yields `true`. -/
theorem shouldCache_false_iff (cacheControl : Option CacheControlMap) :
    (shouldCache cacheControl = false ↔
      ∃ cc, cacheControl = some cc ∧
        (truthy cc.noCache = true ∨ truthy cc.noStore = true ∨
          truthy cc.isPrivate = true ∨ cc.maxAge = JSValue.num 0)) ∧
    shouldCache none = true := by
  constructor
  · cases cacheControl with
    | none =>
      simp [shouldCache]
    | some cc =>
      simp only [shouldCache]
      constructor
      · intro h
        refine ⟨cc, rfl, ?_⟩
        by_cases h1 : truthy cc.noCache = true
        · exact Or.inl h1
        by_cases h2 : truthy cc.noStore = true
        · exact Or.inr (Or.inl h2)
        by_cases h3 : truthy cc.isPrivate = true
        · exact Or.inr (Or.inr (Or.inl h3))
        refine Or.inr (Or.inr (Or.inr ?_))
        by_cases h4 : strictEqZero cc.maxAge = true
        · cases hm : cc.maxAge with
          | num n =>
            rw [hm] at h4
            simp only [strictEqZero, beq_iff_eq] at h4
            rw [h4]
          | undefined => rw [hm] at h4; simp [strictEqZero] at h4
          | null => rw [hm] at h4; simp [strictEqZero] at h4
          | bool b => rw [hm] at h4; simp [strictEqZero] at h4
          | str s => rw [hm] at h4; simp [strictEqZero] at h4
        · exfalso
          simp only [Bool.not_eq_true] at h1 h2 h3 h4
          rw [h1, h2, h3, h4] at h
          simp at h
      · rintro ⟨cc', hcc, hdir⟩
        injection hcc with hcc
        subst hcc
        rcases hdir with h1 | h2 | h3 | h4
        · simp [h1]
        · simp [h2]
        · simp [h3]
        · simp [h4, strictEqZero]
  · rfl

/-- C9: with the other directives non-truthy, only `max-age` strictly equal
to the number `0` forces non-cacheability; the string `"0"`, a negative
number, or any non-zero number leaves the response cacheable. -/
theorem shouldCache_maxAge_strict (cc : CacheControlMap)
    (h1 : truthy cc.noCache = false) (h2 : truthy cc.noStore = false)
    (h3 : truthy cc.isPrivate = false) :
    (shouldCache (some cc) = false ↔ cc.maxAge = JSValue.num 0) ∧
    (∀ s : String, cc.maxAge = JSValue.str s → shouldCache (some cc) = true) ∧
    (∀ n : Int, cc.maxAge = JSValue.num n → n ≠ 0 → shouldCache (some cc) = true) := by
  have key : shouldCache (some cc) = false ↔ cc.maxAge = JSValue.num 0 := by
    simp only [shouldCache, h1, h2, h3, Bool.false_or]
    constructor
    · intro h
      by_cases h4 : strictEqZero cc.maxAge = true
      · cases hm : cc.maxAge with
        | num n =>
          rw [hm] at h4
          simp only [strictEqZero, beq_iff_eq] at h4
          rw [h4]
        | undefined => rw [hm] at h4; simp [strictEqZero] at h4
        | null => rw [hm] at h4; simp [strictEqZero] at h4
        | bool b => rw [hm] at h4; simp [strictEqZero] at h4
        | str s => rw [hm] at h4; simp [strictEqZero] at h4
      · simp only [Bool.not_eq_true] at h4
        rw [h4] at h
        simp at h
    · intro h
      simp [h, strictEqZero]
  refine ⟨key, ?_, ?_⟩
  · intro s hs
    cases hsc : shouldCache (some cc) with
    | true => rfl
    | false =>
      exfalso
      have := key.mp hsc
      rw [hs] at this
      exact JSValue.noConfusion this
  · intro n hn hne
    cases hsc : shouldCache (some cc) with
    | true => rfl
    | false =>
      exfalso
      have := key.mp hsc
      rw [hn] at this
      injection this with h0
      exact hne h0

/-- Witness for C9 at a concrete directive map carrying `max-age: "0"`. -/
theorem shouldCache_maxAge_strict_witness :
    truthy (CacheControlMap.mk .undefined .undefined .undefined (.str "0")).noCache = false ∧
    shouldCache (some (CacheControlMap.mk .undefined .undefined .undefined (.str "0"))) = true := by
  refine ⟨by decide, ?_⟩
  exact (shouldCache_maxAge_strict
    (CacheControlMap.mk .undefined .undefined .undefined (.str "0"))
    (by decide) (by decide) (by decide)).2.1 "0" rfl

/-- Chunk identity: the owning capture session's generated request id plus
the chunk's sequence position within that session. -/
abbrev ChunkId := String × Nat

/-- JavaScript value arriving as the first argument of an intercepted
`write`/`end` call: absent (`undefined`), `null`, or an opaque byte
payload, possibly zero-length. -/
inductive JSChunk where
  | undefined
  | null
  | data (bytes : List Nat)
deriving DecidableEq, Repr

/-- The `CachedResponse` record as read and written by `src/middleware.ts`:
the seal flag and the ordered chunk-reference list.  Replay metadata
(status, headers) is not consulted by any claim and is elided. -/
structure CachedResponse where
  isSealed : Bool
  chunks : List ChunkId
deriving DecidableEq, Repr

/-- Modelled from the spec: the store backend's `has` over a sequence of
chunk keys (`memory.store.ts` / `redis.store.ts` are absent from `src/`);
per §6, "a `has(key)` over a sequence of chunk keys must hold for every
element for a response to be treated as replayable". -/
def chunkBucketHas (chunkBucket : ChunkId → Option JSChunk) (ids : List ChunkId) : Bool :=
  ids.all fun cid => (chunkBucket cid).isSome

/-- Embedding of `checkAndHandleCacheHit` (`src/middleware.ts`): the lookup
result is a hit exactly when the record is present, `isSealed` is true and
`chunkBucket.has(cachedResponse.chunks)` holds. -/
def checkAndHandleCacheHit (cachedResponse : Option CachedResponse)
    (chunkBucket : ChunkId → Option JSChunk) : Bool :=
  match cachedResponse with
  | some cr => cr.isSealed && chunkBucketHas chunkBucket cr.chunks
  | none => false

/-- Observable actions of one `middleware` invocation, in order:
`cacheMissCb`/`cacheHitCb` are the awaited `onCacheMiss`/`onCacheHit`
callbacks, `lookupResponse` is the `responseBucket.get` read,
`setCacheKeyIndex` the optional cache-tag index write, `attachCapture` the
overriding of `res.write`/`res.end` plus the finish listener,
`serveCached` the replay of the stored response, `next` the invocation of
the downstream handler, and `errorToClient` an error surfaced to the
client (never emitted by the code). -/
inductive Ev where
  | cacheMissCb
  | cacheHitCb
  | lookupResponse (key : String)
  | setCacheKeyIndex
  | attachCapture
  | serveCached
  | next
  | errorToClient
deriving DecidableEq, Repr

/-- Embedding of `middleware` (`src/middleware.ts`) as the ordered trace of
its observable actions.  A non-GET method short-circuits through
`handleNonGetRequestsAsCacheMiss`; otherwise the response bucket is read
and `checkAndHandleCacheHit` decides between replay and
`handleCacheMiss` followed by `next()`.  `hasTag` records whether a
`getCacheTag` option is configured and returned a tag. -/
def middlewareTrace (method : String) (responseBucket : String → Option CachedResponse)
    (chunkBucket : ChunkId → Option JSChunk) (cacheKey : String) (hasTag : Bool) : List Ev :=
  if method ≠ "GET" then
    [Ev.cacheMissCb, Ev.next]
  else
    Ev.lookupResponse cacheKey ::
      (if checkAndHandleCacheHit (responseBucket cacheKey) chunkBucket then
        [Ev.cacheHitCb, Ev.serveCached]
      else
        Ev.cacheMissCb ::
          ((if hasTag then [Ev.setCacheKeyIndex] else []) ++ [Ev.attachCapture, Ev.next]))

/-- The hit condition in the words of the claim: the stored record for the
key exists, is sealed, and every referenced chunk identity still resolves
in the chunk store. -/
def specHit (responseBucket : String → Option CachedResponse)
    (chunkBucket : ChunkId → Option JSChunk) (cacheKey : String) : Prop :=
  ∃ cr, responseBucket cacheKey = some cr ∧ cr.isSealed = true ∧
    ∀ cid ∈ cr.chunks, (chunkBucket cid).isSome = true

/-- Helper: the boolean hit check of the code agrees with the claim's hit
condition. -/
theorem checkAndHandleCacheHit_iff_specHit (responseBucket : String → Option CachedResponse)
    (chunkBucket : ChunkId → Option JSChunk) (cacheKey : String) :
    checkAndHandleCacheHit (responseBucket cacheKey) chunkBucket = true ↔
      specHit responseBucket chunkBucket cacheKey := by
  cases h : responseBucket cacheKey with
  | none => simp [checkAndHandleCacheHit, specHit, h]
  | some cr =>
    simp [checkAndHandleCacheHit, specHit, h, chunkBucketHas, List.all_eq_true]

/-- C1: on a GET request the middleware serves the cached response iff the
record exists, is sealed and every referenced chunk resolves; in every
other case the handler is invoked with capture attached and no error is
surfaced to the client. -/
theorem middleware_get_hit_iff (responseBucket : String → Option CachedResponse)
    (chunkBucket : ChunkId → Option JSChunk) (cacheKey : String) (hasTag : Bool) :
    (Ev.serveCached ∈ middlewareTrace "GET" responseBucket chunkBucket cacheKey hasTag ↔
      specHit responseBucket chunkBucket cacheKey) ∧
    (Ev.attachCapture ∈ middlewareTrace "GET" responseBucket chunkBucket cacheKey hasTag ↔
      ¬ specHit responseBucket chunkBucket cacheKey) ∧
    (Ev.next ∈ middlewareTrace "GET" responseBucket chunkBucket cacheKey hasTag ↔
      ¬ specHit responseBucket chunkBucket cacheKey) ∧
    Ev.errorToClient ∉ middlewareTrace "GET" responseBucket chunkBucket cacheKey hasTag := by
  have hiff := checkAndHandleCacheHit_iff_specHit responseBucket chunkBucket cacheKey
  cases hchk : checkAndHandleCacheHit (responseBucket cacheKey) chunkBucket with
  | true =>
    have hs : specHit responseBucket chunkBucket cacheKey := hiff.mp hchk
    cases hasTag <;>
      simp [middlewareTrace, hchk, hs]
  | false =>
    have hs : ¬ specHit responseBucket chunkBucket cacheKey := by
      intro hcontra
      rw [hiff.mpr hcontra] at hchk
      exact Bool.noConfusion hchk
    cases hasTag <;>
      simp [middlewareTrace, hchk, hs]

/-- C4: a request whose method is not GET performs no response-bucket read,
no capture attachment and no replay: its trace is exactly the miss
callback followed by the handler. -/
theorem middleware_nonGet_bypasses_cache (method : String)
    (responseBucket : String → Option CachedResponse)
    (chunkBucket : ChunkId → Option JSChunk) (cacheKey : String) (hasTag : Bool)
    (h : method ≠ "GET") :
    middlewareTrace method responseBucket chunkBucket cacheKey hasTag =
      [Ev.cacheMissCb, Ev.next] ∧
    (∀ k, Ev.lookupResponse k ∉
      middlewareTrace method responseBucket chunkBucket cacheKey hasTag) ∧
    Ev.attachCapture ∉ middlewareTrace method responseBucket chunkBucket cacheKey hasTag ∧
    Ev.serveCached ∉ middlewareTrace method responseBucket chunkBucket cacheKey hasTag ∧
    Ev.next ∈ middlewareTrace method responseBucket chunkBucket cacheKey hasTag := by
  have ht : middlewareTrace method responseBucket chunkBucket cacheKey hasTag =
      [Ev.cacheMissCb, Ev.next] := by
    simp [middlewareTrace, h]
  refine ⟨ht, ?_, ?_, ?_, ?_⟩ <;> rw [ht] <;> simp

/-- Witness for C4 at the concrete method POST. -/
theorem middleware_nonGet_bypasses_cache_witness :
    ("POST" ≠ "GET") ∧
    middlewareTrace "POST" (fun _ => none) (fun _ => none) "/k" false =
      [Ev.cacheMissCb, Ev.next] :=
  ⟨by decide,
    (middleware_nonGet_bypasses_cache "POST" (fun _ => none) (fun _ => none) "/k" false
      (by decide)).1⟩

/-- C10: a non-GET request invokes the `onCacheMiss` callback exactly once,
and it occurs before the handler is invoked. -/
theorem middleware_nonGet_reports_miss_once (method : String)
    (responseBucket : String → Option CachedResponse)
    (chunkBucket : ChunkId → Option JSChunk) (cacheKey : String) (hasTag : Bool)
    (h : method ≠ "GET") :
    (middlewareTrace method responseBucket chunkBucket cacheKey hasTag).count
        Ev.cacheMissCb = 1 ∧
    middlewareTrace method responseBucket chunkBucket cacheKey hasTag =
      [Ev.cacheMissCb, Ev.next] := by
  have ht : middlewareTrace method responseBucket chunkBucket cacheKey hasTag =
      [Ev.cacheMissCb, Ev.next] := by
    simp [middlewareTrace, h]
  rw [ht]
  exact ⟨by decide, rfl⟩

/-- Witness for C10 at the concrete method PUT. -/
theorem middleware_nonGet_reports_miss_once_witness :
    ("PUT" ≠ "GET") ∧
    (middlewareTrace "PUT" (fun _ => none) (fun _ => none) "/k" true).count
        Ev.cacheMissCb = 1 :=
  ⟨by decide,
    (middleware_nonGet_reports_miss_once "PUT" (fun _ => none) (fun _ => none) "/k" true
      (by decide)).1⟩

/-- Durable state owned by one capture session: the chunk-bucket entries
written so far (in write order) and the in-progress `CachedResponse`
record held in the response bucket. -/
structure SessionState where
  chunkStore : List (ChunkId × JSChunk)
  record : CachedResponse
deriving DecidableEq, Repr

/-- Lookup of a chunk identity in the session's chunk store. -/
def SessionState.lookupChunk (st : SessionState) (cid : ChunkId) : Option JSChunk :=
  (st.chunkStore.find? fun p => p.1 == cid).map (·.2)

/-- Session state before any chunk task has run: empty chunk store, and the
in-progress record `{ chunks: [] }` installed by `middleware`
(`src/middleware.ts`), not yet sealed. -/
def initSession : SessionState :=
  ⟨[], { isSealed := false, chunks := [] }⟩

/-- An asynchronous task queued on the per-session ordering queue, acting
on the session's durable state. -/
abbrev QTask := SessionState → SessionState

/-- Modelled from the spec: `cacheChunk` of `chunk.ts` (absent from
`src/`); per §4.2 it computes the chunk's identity (session id plus the
next sequence position), stores the chunk under that identity, and appends
the identity to the in-progress record's `chunks`, persisting the
record. -/
def cacheChunk (requestId : String) (chunk : JSChunk) : QTask := fun st =>
  let cid : ChunkId := (requestId, st.record.chunks.length)
  { chunkStore := st.chunkStore ++ [(cid, chunk)],
    record := { st.record with chunks := st.record.chunks ++ [cid] } }

/-- Modelled from the spec: `sealChunks` of `chunk.ts` (absent from
`src/`); per §4.3 it marks `isSealed = true` on the record and persists
it. -/
def sealChunks : QTask := fun st =>
  { st with record := { st.record with isSealed := true } }

/-- Embedding of `getChunkFunctions.onWrite` (`src/middleware.ts`): a
chunk-persistence task is pushed onto the session queue exactly when the
intercepted value is not `undefined` (`if (chunk !== undefined)`). -/
def onWrite (requestId : String) (chunk : JSChunk) (queue : List QTask) : List QTask :=
  if chunk ≠ JSChunk.undefined then queue ++ [cacheChunk requestId chunk] else queue

/-- Embedding of `getChunkFunctions.onFinish` (`src/middleware.ts`): the
sealing task is pushed onto the same session queue, after everything
already queued. -/
def onFinish (queue : List QTask) : List QTask :=
  queue ++ [sealChunks]

/-- The queue contents of one capture session after the handler emitted
`writes` (in that order) and the response finished: each write goes
through `onWrite`, then `onFinish` appends the sealing task. -/
def captureQueue (requestId : String) (writes : List JSChunk) : List QTask :=
  onFinish (writes.foldl (fun q c => onWrite requestId c q) [])

/-- Modelled from the spec: the `Queue` drain loop of `utils.ts` (absent
from `src/`); per §4.1 at most one task executes at a time and task N+1
does not begin until task N has fully completed, so the queued tasks act
on the state strictly in queue order. -/
def runQueue : List QTask → SessionState → SessionState
  | [], st => st
  | t :: ts, st => runQueue ts (t st)

/-- Modelled from the spec: the drain loop with an explicit completion
latency for every task (`lat i` is how long the i-th queued task takes,
chosen arbitrarily by the backend).  Each task starts exactly when its
predecessor completes (§4.1); the result is the final state together with
the completion time of the last drained task (`now` for an empty
queue).  The completion time of the k-th task of a queue `q` is the
finish component of draining `q.take k`. -/
def runQueueTimed (lat : Nat → Nat) : List QTask → SessionState → Nat → Nat →
    SessionState × Nat
  | [], st, _, now => (st, now)
  | t :: ts, st, idx, now => runQueueTimed lat ts (t st) (idx + 1) (now + lat idx)

/-- Helper: the state produced by the timed drain does not depend on the
latencies; it is the strictly sequential execution of the queue. -/
theorem runQueueTimed_fst (lat : Nat → Nat) :
    ∀ (q : List QTask) (st : SessionState) (idx now : Nat),
      (runQueueTimed lat q st idx now).1 = runQueue q st := by
  intro q
  induction q with
  | nil => intro st idx now; rfl
  | cons t ts ih =>
    intro st idx now
    simp only [runQueueTimed, runQueue]
    exact ih (t st) (idx + 1) (now + lat idx)

/-- Helper: the drain finish time never precedes the drain start time. -/
theorem runQueueTimed_start_le (lat : Nat → Nat) :
    ∀ (q : List QTask) (st : SessionState) (idx now : Nat),
      now ≤ (runQueueTimed lat q st idx now).2 := by
  intro q
  induction q with
  | nil => intro st idx now; exact Nat.le_refl now
  | cons t ts ih =>
    intro st idx now
    simp only [runQueueTimed]
    exact Nat.le_trans (Nat.le_add_right now (lat idx))
      (ih (t st) (idx + 1) (now + lat idx))

/-- Helper: draining a prefix of the queue finishes no later than draining
the whole queue — in particular every individual task completes no later
than the task drained last. -/
theorem runQueueTimed_prefix_le (lat : Nat → Nat) :
    ∀ (q1 q2 : List QTask) (st : SessionState) (idx now : Nat),
      (runQueueTimed lat q1 st idx now).2 ≤
        (runQueueTimed lat (q1 ++ q2) st idx now).2 := by
  intro q1
  induction q1 with
  | nil =>
    intro q2 st idx now
    exact runQueueTimed_start_le lat q2 st idx now
  | cons t ts ih =>
    intro q2 st idx now
    simp only [List.cons_append, runQueueTimed]
    exact ih q2 (t st) (idx + 1) (now + lat idx)

/-- Helper: folding the handler's data writes through `onWrite` appends one
`cacheChunk` task per write, in write order. -/
theorem foldl_onWrite_data (requestId : String) :
    ∀ (ws : List (List Nat)) (q : List QTask),
      (ws.map JSChunk.data).foldl (fun acc c => onWrite requestId c acc) q =
        q ++ ws.map (fun c => cacheChunk requestId (JSChunk.data c)) := by
  intro ws
  induction ws with
  | nil => intro q; simp
  | cons w ws ih =>
    intro q
    simp only [List.map_cons, List.foldl_cons]
    rw [ih]
    simp [onWrite]

/-- Helper: the capture queue for a sequence of data writes is the
`cacheChunk` tasks in write order followed by the sealing task. -/
theorem captureQueue_data (requestId : String) (ws : List (List Nat)) :
    captureQueue requestId (ws.map JSChunk.data) =
      ws.map (fun c => cacheChunk requestId (JSChunk.data c)) ++ [sealChunks] := by
  simp [captureQueue, onFinish, foldl_onWrite_data]

/-- Helper: draining a concatenation of queues drains the first part, then
the second on the resulting state. -/
theorem runQueue_append :
    ∀ (q1 q2 : List QTask) (st : SessionState),
      runQueue (q1 ++ q2) st = runQueue q2 (runQueue q1 st) := by
  intro q1
  induction q1 with
  | nil => intro q2 st; rfl
  | cons t ts ih =>
    intro q2 st
    simp only [List.cons_append, runQueue]
    exact ih q2 (t st)

/-- Helper: running the `cacheChunk` tasks of a sequence of data writes
appends, both to the chunk store and to the record's `chunks` list, one
entry per write with consecutive sequence positions, in write order. -/
theorem runQueue_chunkTasks (requestId : String) :
    ∀ (ws : List (List Nat)) (st : SessionState),
      runQueue (ws.map fun c => cacheChunk requestId (JSChunk.data c)) st =
        { chunkStore := st.chunkStore ++
            ((List.range' st.record.chunks.length ws.length).zip
              (ws.map JSChunk.data)).map (fun p => ((requestId, p.1), p.2)),
          record := { isSealed := st.record.isSealed,
                      chunks := st.record.chunks ++
                        (List.range' st.record.chunks.length ws.length).map
                          (fun k => (requestId, k)) } } := by
  intro ws
  induction ws with
  | nil =>
    intro st
    simp [runQueue]
  | cons w ws ih =>
    intro st
    simp only [List.map_cons, runQueue]
    rw [ih]
    simp [cacheChunk, List.range'_succ, List.append_assoc, Nat.add_comm]

/-- Helper: the full capture run for a sequence of data writes: every write
stored under consecutive identities in write order, and the record sealed
with exactly those identities in order. -/
theorem runQueue_captureQueue_data (requestId : String) (ws : List (List Nat)) :
    runQueue (captureQueue requestId (ws.map JSChunk.data)) initSession =
      { chunkStore := ((List.range ws.length).zip (ws.map JSChunk.data)).map
          (fun p => ((requestId, p.1), p.2)),
        record := { isSealed := true,
                    chunks := (List.range ws.length).map (fun i => (requestId, i)) } } := by
  rw [captureQueue_data, runQueue_append, runQueue_chunkTasks]
  simp [initSession, sealChunks, runQueue, List.range_eq_range']

/-- C2: for any sequence of N data writes followed by completion, drained
through the per-session queue, the sealed record's `chunks` list equals
the emission order of the writes exactly (identities `(requestId, 0..N-1)`
in order, with the i-th identity holding the i-th write), and the
resulting state is independent of the (arbitrary) completion latencies of
the individual store operations. -/
theorem capture_chunks_match_write_order (requestId : String)
    (writes : List (List Nat)) (lat : Nat → Nat) :
    ((runQueueTimed lat (captureQueue requestId (writes.map JSChunk.data))
        initSession 0 0).1.record.isSealed = true) ∧
    ((runQueueTimed lat (captureQueue requestId (writes.map JSChunk.data))
        initSession 0 0).1.record.chunks =
      (List.range writes.length).map (fun i => (requestId, i))) ∧
    ((runQueueTimed lat (captureQueue requestId (writes.map JSChunk.data))
        initSession 0 0).1.chunkStore =
      ((List.range writes.length).zip (writes.map JSChunk.data)).map
        (fun p => ((requestId, p.1), p.2))) ∧
    (∀ lat' : Nat → Nat,
      (runQueueTimed lat' (captureQueue requestId (writes.map JSChunk.data))
          initSession 0 0).1 =
        (runQueueTimed lat (captureQueue requestId (writes.map JSChunk.data))
            initSession 0 0).1) := by
  refine ⟨?_, ?_, ?_, ?_⟩
  · rw [runQueueTimed_fst, runQueue_captureQueue_data]
  · rw [runQueueTimed_fst, runQueue_captureQueue_data]
  · rw [runQueueTimed_fst, runQueue_captureQueue_data]
  · intro lat'
    rw [runQueueTimed_fst, runQueueTimed_fst]

/-- C3: the sealing task is enqueued on the same per-session queue after
every chunk-store task of the session; under the timed drain every
prefix of the queue (hence every chunk-store task) completes no later
than the drain of the whole queue, whose last task is the seal; and at no
observable point is the record sealed with a `chunks` list narrower than
the full set of identities of the writes emitted before completion. -/
theorem seal_after_all_chunk_tasks (requestId : String)
    (writes : List (List Nat)) (lat : Nat → Nat) :
    (captureQueue requestId (writes.map JSChunk.data) =
      writes.map (fun c => cacheChunk requestId (JSChunk.data c)) ++ [sealChunks]) ∧
    (∀ k : Nat,
      (runQueueTimed lat ((captureQueue requestId (writes.map JSChunk.data)).take k)
          initSession 0 0).2 ≤
        (runQueueTimed lat (captureQueue requestId (writes.map JSChunk.data))
            initSession 0 0).2) ∧
    (∀ k : Nat,
      (runQueue ((captureQueue requestId (writes.map JSChunk.data)).take k)
          initSession).record.isSealed = false ∨
      (runQueue ((captureQueue requestId (writes.map JSChunk.data)).take k)
          initSession).record.chunks =
        (List.range writes.length).map (fun i => (requestId, i))) := by
  refine ⟨captureQueue_data requestId writes, ?_, ?_⟩
  · intro k
    have hsplit : (captureQueue requestId (writes.map JSChunk.data)).take k ++
        (captureQueue requestId (writes.map JSChunk.data)).drop k =
          captureQueue requestId (writes.map JSChunk.data) := List.take_append_drop _ _
    calc (runQueueTimed lat ((captureQueue requestId (writes.map JSChunk.data)).take k)
          initSession 0 0).2
        ≤ (runQueueTimed lat ((captureQueue requestId (writes.map JSChunk.data)).take k ++
            (captureQueue requestId (writes.map JSChunk.data)).drop k)
            initSession 0 0).2 := runQueueTimed_prefix_le lat _ _ _ _ _
      _ = _ := by rw [hsplit]
  · intro k
    by_cases hk : k ≤ writes.length
    · left
      rw [captureQueue_data]
      rw [List.take_append_of_le_length (by simpa using hk)]
      rw [← List.map_take, runQueue_chunkTasks]
      rfl
    · right
      have hlen : (captureQueue requestId (writes.map JSChunk.data)).length ≤ k := by
        rw [captureQueue_data]
        simp
        omega
      rw [List.take_of_length_le hlen, runQueue_captureQueue_data]

/-- C7 counterexample: a `null` first argument is not `undefined`, so
`onWrite` (`src/middleware.ts`, guard `chunk !== undefined`) does push a
chunk-persistence task, and running that task persists the `null` value —
contradicting the claim that null chunks are never persisted and schedule
no queue task. -/
theorem onWrite_null_schedules_task :
    (onWrite "r" JSChunk.null []).length = 1 ∧
    (runQueue (onWrite "r" JSChunk.null []) initSession).chunkStore =
      [(("r", 0), JSChunk.null)] := by
  constructor
  · simp [onWrite]
  · simp [onWrite, runQueue, cacheChunk, initSession]

/-- C7 (amended): a persistence task is scheduled iff the chunk is not
`undefined` (absent): `undefined` schedules nothing, a zero-length data
chunk schedules a task and is persisted, and a `null` chunk — though
outside the declared `Chunk` type — also schedules a task. -/
theorem onWrite_schedules_iff_defined (requestId : String) (chunk : JSChunk)
    (q : List QTask) :
    ((onWrite requestId chunk q).length =
      if chunk = JSChunk.undefined then q.length else q.length + 1) ∧
    onWrite requestId JSChunk.undefined q = q ∧
    (onWrite requestId (JSChunk.data []) q).length = q.length + 1 ∧
    (runQueue (onWrite requestId (JSChunk.data []) []) initSession).chunkStore =
      [((requestId, 0), JSChunk.data [])] := by
  refine ⟨?_, ?_, ?_, ?_⟩
  · cases chunk <;> simp [onWrite]
  · simp [onWrite]
  · simp [onWrite]
  · simp [onWrite, runQueue, cacheChunk, initSession]

/-- One call the handler makes on the response object during capture. -/
inductive ResCall where
  | writeCall (args : List JSChunk)
  | endCall (args : List JSChunk)

/-- Argument list of a response-object call. -/
def ResCall.argsOf : ResCall → List JSChunk
  | .writeCall a => a
  | .endCall a => a

/-- The framework's own response object, external to this code: running a
sequence of calls through the original `write`/`end` yields the final
client-connection state and the list of return values, in call order. -/
def runOriginal {ω : Type} (origWrite origEnd : List JSChunk → ω → ω × Bool) :
    List ResCall → ω → ω × List Bool
  | [], out => (out, [])
  | c :: cs, out =>
    let step := match c with
      | .writeCall args => origWrite args out
      | .endCall args => origEnd args out
    let rest := runOriginal origWrite origEnd cs step.1
    (rest.1, step.2 :: rest.2)

/-- Embedding of the `res.write`/`res.end` overrides installed by
`handleCacheMiss` (`src/middleware.ts`): each intercepted call first feeds
`args[0]` (or `undefined` when there is no argument) to `onWrite`, which
touches only the capture queue, then forwards the exact original argument
list to the original function and returns its return value. -/
def runWrapped {ω : Type} (requestId : String)
    (origWrite origEnd : List JSChunk → ω → ω × Bool) :
    List ResCall → List QTask × ω → (List QTask × ω) × List Bool
  | [], s => (s, [])
  | c :: cs, s =>
    let q := onWrite requestId (c.argsOf.headD JSChunk.undefined) s.1
    let step := match c with
      | .writeCall args => origWrite args s.2
      | .endCall args => origEnd args s.2
    let rest := runWrapped requestId origWrite origEnd cs (q, step.1)
    (rest.1, step.2 :: rest.2)

/-- C6: during a miss-capture, the overridden hooks forward the exact
original arguments to the original `write`/`end` and return their return
values: for any call sequence, any original sink behavior and any capture
queue, the client-connection state and the returned outcomes are exactly
those of the original calls, unaffected by capture. -/
theorem wrapped_hooks_preserve_client_output {ω : Type} (requestId : String)
    (origWrite origEnd : List JSChunk → ω → ω × Bool) (calls : List ResCall)
    (q : List QTask) (out : ω) :
    (runWrapped requestId origWrite origEnd calls (q, out)).1.2 =
      (runOriginal origWrite origEnd calls out).1 ∧
    (runWrapped requestId origWrite origEnd calls (q, out)).2 =
      (runOriginal origWrite origEnd calls out).2 := by
  induction calls generalizing q out with
  | nil => exact ⟨rfl, rfl⟩
  | cons c cs ih =>
    cases c with
    | writeCall args =>
      simp only [runWrapped, runOriginal, ResCall.argsOf]
      exact ⟨(ih _ _).1, by rw [(ih _ _).2]⟩
    | endCall args =>
      simp only [runWrapped, runOriginal, ResCall.argsOf]
      exact ⟨(ih _ _).1, by rw [(ih _ _).2]⟩

/-- Contents of the three store buckets created by the middleware factory
(`src/middleware.ts`), used to state that an operation performs no store
mutation. -/
structure StoreState where
  responseBucket : List (String × CachedResponse)
  chunkBucket : List (ChunkId × JSChunk)
  cacheKeyBucket : List (String × String)
deriving DecidableEq, Repr

/-- Embedding of `purge` (`src/middleware.ts`): for every cache tag it
immediately throws a "not implemented" error, touching no bucket. -/
def purge (cacheTag : String) (stores : StoreState) : Except String Unit × StoreState :=
  (Except.error ("purge for cache tag " ++ cacheTag ++
    " not implemented - API could still change - do not use"), stores)

/-- C8: `purge` fails for every cache tag with an error whose message
contains "not implemented", never succeeds, and never mutates any store
bucket. -/
theorem purge_not_implemented (cacheTag : String) (stores : StoreState) :
    (purge cacheTag stores).1 =
      Except.error (("purge for cache tag " ++ cacheTag ++ " ") ++
        "not implemented" ++ " - API could still change - do not use") ∧
    (∀ u : Unit, (purge cacheTag stores).1 ≠ Except.ok u) ∧
    (purge cacheTag stores).2 = stores := by
  refine ⟨?_, ?_, rfl⟩
  · simp only [purge]
    congr 1
    have h : " not implemented - API could still change - do not use" =
        " " ++ "not implemented" ++ " - API could still change - do not use" := by decide
    rw [h]
    simp [String.append_assoc]
  · intro u h
    simp [purge] at h
